import Mathlib

/-!
Shallow embedding of `src/DaisyPod_AI_BitCrusher.ino` (the full variant with
pitch tracking and bypass, the second program in the file).

floats are modelled as exact rationals (ℚ), C `int` as ℤ, and the C cast
`(int)x` (truncation toward zero) as `cIntCast`.
-/

namespace BitCrusher

/-- C cast `(int)q`: truncation toward zero. -/
def cIntCast (q : ℚ) : ℤ := if q < 0 then ⌈q⌉ else ⌊q⌋

/-- `const float pre_gain = 1.0f;` -/
def pre_gain : ℚ := 1

/-- `const float post_gain = 0.8f;` -/
def post_gain : ℚ := 8/10

/-- `struct CrushState { float heldSample = 0.f; int counter = 0; };` -/
structure CrushState where
  heldSample : ℚ
  counter : ℤ
deriving DecidableEq

/-- Pitch detection state: globals `lastSample`, `timeSinceZero`, `detectedFreq`. -/
structure PitchState where
  lastSample : ℚ
  timeSinceZero : ℚ
  detectedFreq : ℚ
deriving DecidableEq

/-- Initial values of the pitch-tracking globals:
`lastSample = 0.f; timeSinceZero = 0.f; detectedFreq = 110.f;` -/
def initPitchState : PitchState := ⟨0, 0, 110⟩

/-- `inline float MySoftClip(float x)`:
`if(x > 1.f) return 2.f/3.f; if(x < -1.f) return -2.f/3.f; return x - (x*x*x)/3.f;` -/
def MySoftClip (x : ℚ) : ℚ :=
  if x > 1 then 2/3
  else if x < -1 then -2/3
  else x - (x*x*x)/3

/-- The quantization step of `BitcrushSample`:
`v = floorf(v * levels + 0.5f) / levels;` -/
def quantize (levels : ℤ) (v : ℚ) : ℚ := (⌊v * (levels : ℚ) + 1/2⌋ : ℤ) / (levels : ℚ)

/-- `inline float BitcrushSample(float in, CrushState &st, int sr_factor, int bit_depth)`.
Returns the output sample together with the updated state (the C code mutates
`st` in place). `levels = 1 << bit_depth` is `2 ^ bit_depth`. -/
def BitcrushSample (input : ℚ) (st : CrushState) (sr_factor : ℤ) (bit_depth : ℕ) :
    ℚ × CrushState :=
  let c := st.counter + 1
  let st1 : CrushState := if sr_factor ≤ c then ⟨input, 0⟩ else ⟨st.heldSample, c⟩
  let v := st1.heldSample * pre_gain
  let levels : ℤ := 2 ^ bit_depth
  let v := quantize levels v
  let v := v * post_gain
  let v := MySoftClip v
  (v, st1)

/-- `inline void UpdatePitch(float s, float sampleRate)`: zero-crossing pitch
tracking over the globals, returned as a new `PitchState`. -/
def UpdatePitch (s sampleRate : ℚ) (ps : PitchState) : PitchState :=
  let t := ps.timeSinceZero + 1
  if ps.lastSample < 0 ∧ 0 ≤ s then
    if 0 < t then
      let period := t / sampleRate
      let freq := 1 / period
      if 20 < freq ∧ freq < 4000 then ⟨s, 0, freq⟩
      else ⟨s, 0, ps.detectedFreq⟩
    else ⟨s, 0, ps.detectedFreq⟩
  else ⟨s, t, ps.detectedFreq⟩

/-- `float pitch = detectedFreq; if(pitch < 1.0f) pitch = 1.0f;` -/
def pitchOf (detectedFreq : ℚ) : ℚ := if detectedFreq < 1 then 1 else detectedFreq

/-- `float pitchFactor = (200.f / pitch); if(pitchFactor < 1.f) pitchFactor = 1.f;` -/
def pitchFactorOf (pitch : ℚ) : ℚ := if 200 / pitch < 1 then 1 else 200 / pitch

/-- Adaptive branch of the hold-length computation in `AudioCallback`:
`float scaled = 1.f + crushAmount * pitchFactor * 30.f; sr_factor = (int)scaled;` -/
def srFactorAdaptive (crushAmount detectedFreq : ℚ) : ℤ :=
  cIntCast (1 + crushAmount * pitchFactorOf (pitchOf detectedFreq) * 30)

/-- Manual branch: `sr_factor = 1 + (int)(crushAmount * 99.f);` -/
def srFactorManual (crushAmount : ℚ) : ℤ := 1 + cIntCast (crushAmount * 99)

/-- `if(sr_factor < 1) sr_factor = 1; if(sr_factor > 100) sr_factor = 100;` -/
def clampSr (x : ℤ) : ℤ :=
  let a := if x < 1 then 1 else x
  if 100 < a then 100 else a

/-- `int bit_depth = 2 + (int)((bd_knob / 65535.f) * 14);` -/
def bitDepthOf (raw : ℕ) : ℤ := 2 + cIntCast ((raw : ℚ) / 65535 * 14)

/-- The per-block (read-only, from the audio callback's point of view)
parameters: `crushAmount = sr_knob / 65535.f`, `bit_depth`, and the two
toggles `pitchTrackingOn` / `bypassOn`. -/
structure Params where
  crushAmount : ℚ
  bit_depth : ℕ
  pitchTrackingOn : Bool
  bypassOn : Bool

/-- The mutable state touched by one loop iteration of `AudioCallback`:
the pitch-tracking globals and the two per-channel crush states. -/
structure StepState where
  pitch : PitchState
  lst : CrushState
  rst : CrushState

/-- One iteration of the `for` loop in `AudioCallback` (full variant):
pitch tracking and hold-length computation, then either true bypass or the
two per-channel `BitcrushSample` calls.  Returns `((outL, outR), new state)`. -/
def processSample (p : Params) (sr : ℚ) (st : StepState) (L R : ℚ) :
    (ℚ × ℚ) × StepState :=
  let pitchSt := if p.pitchTrackingOn then UpdatePitch L sr st.pitch else st.pitch
  let sf : ℤ := if p.pitchTrackingOn then srFactorAdaptive p.crushAmount pitchSt.detectedFreq
                else srFactorManual p.crushAmount
  let sf := clampSr sf
  if p.bypassOn then ((L, R), ⟨pitchSt, st.lst, st.rst⟩)
  else
    let l := BitcrushSample L st.lst sf p.bit_depth
    let r := BitcrushSample R st.rst sf p.bit_depth
    ((l.1, r.1), ⟨pitchSt, l.2, r.2⟩)

/-! ## Helper lemmas -/

lemma cIntCast_of_nonneg {q : ℚ} (h : 0 ≤ q) : cIntCast q = ⌊q⌋ := by
  simp [cIntCast, not_lt.mpr h]

lemma cubic_mono {x y : ℚ} (hx : -1 ≤ x) (hxy : x ≤ y) (hy : y ≤ 1) :
    x - (x*x*x)/3 ≤ y - (y*y*y)/3 := by
  have hx1 : x ≤ 1 := le_trans hxy hy
  have hy1 : -1 ≤ y := le_trans hx hxy
  have hxx : x * x ≤ 1 := by nlinarith
  have hyy : y * y ≤ 1 := by nlinarith
  have hxy2 : x * y ≤ 1 := by nlinarith [sq_nonneg (x - y)]
  have key : 0 ≤ (y - x) * (3 - (x*x + x*y + y*y)) :=
    mul_nonneg (by linarith) (by linarith)
  nlinarith [key]

lemma cubic_le {x : ℚ} (hx1 : -1 ≤ x) (hx2 : x ≤ 1) : x - (x*x*x)/3 ≤ 2/3 := by
  nlinarith [sq_nonneg (x - 1), sq_nonneg (x + 1)]

lemma cubic_ge {x : ℚ} (hx1 : -1 ≤ x) (hx2 : x ≤ 1) : -(2/3) ≤ x - (x*x*x)/3 := by
  nlinarith [sq_nonneg (x - 1), sq_nonneg (x + 1)]

lemma MySoftClip_odd (x : ℚ) : MySoftClip (-x) = -MySoftClip x := by
  unfold MySoftClip
  split_ifs
  all_goals first | linarith | ring | norm_num

lemma MySoftClip_bounds (x : ℚ) : -(2/3) ≤ MySoftClip x ∧ MySoftClip x ≤ 2/3 := by
  unfold MySoftClip
  split_ifs with h1 h2
  · norm_num
  · norm_num
  · push_neg at h1 h2
    exact ⟨cubic_ge h2 h1, cubic_le h2 h1⟩

lemma MySoftClip_mono {x y : ℚ} (hxy : x ≤ y) : MySoftClip x ≤ MySoftClip y := by
  unfold MySoftClip
  split_ifs
  all_goals
    first
    | linarith
    | linarith [cubic_mono (show (-1:ℚ) ≤ x by linarith) hxy (show y ≤ 1 by linarith)]
    | linarith [cubic_ge (show (-1:ℚ) ≤ y by linarith) (show y ≤ 1 by linarith)]
    | linarith [cubic_le (show (-1:ℚ) ≤ x by linarith) (show x ≤ 1 by linarith)]

lemma clampSr_eq_clamp (x : ℤ) : clampSr x = max 1 (min 100 x) := by
  simp only [clampSr]
  split_ifs <;> omega

lemma clampSr_range (x : ℤ) : 1 ≤ clampSr x ∧ clampSr x ≤ 100 := by
  simp only [clampSr]
  split_ifs <;> omega

lemma pitchOf_eq_max (f : ℚ) : pitchOf f = max f 1 := by
  unfold pitchOf
  split_ifs with h
  · exact (max_eq_right h.le).symm
  · exact (max_eq_left (not_lt.mp h)).symm

lemma pitchFactorOf_eq_max (p : ℚ) : pitchFactorOf p = max (200 / p) 1 := by
  unfold pitchFactorOf
  split_ifs with h
  · exact (max_eq_right h.le).symm
  · exact (max_eq_left (not_lt.mp h)).symm

lemma pitchFactorOf_ge_one (p : ℚ) : 1 ≤ pitchFactorOf p := by
  unfold pitchFactorOf
  split_ifs with h
  · exact le_refl 1
  · exact not_lt.mp h

/-! ## Claim theorems -/

/-- C1: when `bypassOn` is true, one iteration of the audio loop emits the
input stereo pair unchanged on both channels and leaves both channels'
`CrushState` (heldSample, counter) unmutated, for any other parameter values. -/
theorem C1_bypass_identity (p : Params) (sr : ℚ) (st : StepState) (L R : ℚ)
    (h : p.bypassOn = true) :
    (processSample p sr st L R).1 = (L, R) ∧
    (processSample p sr st L R).2.lst = st.lst ∧
    (processSample p sr st L R).2.rst = st.rst := by
  unfold processSample
  rw [if_pos h]
  exact ⟨rfl, rfl, rfl⟩

theorem C1_bypass_identity_witness :
    (processSample ⟨1/2, 8, true, true⟩ 48000 ⟨initPitchState, ⟨0, 0⟩, ⟨0, 0⟩⟩
        (1/4) (1/3)).1 = (1/4, 1/3) ∧
    (processSample ⟨1/2, 8, true, true⟩ 48000 ⟨initPitchState, ⟨0, 0⟩, ⟨0, 0⟩⟩
        (1/4) (1/3)).2.lst = (⟨0, 0⟩ : CrushState) ∧
    (processSample ⟨1/2, 8, true, true⟩ 48000 ⟨initPitchState, ⟨0, 0⟩, ⟨0, 0⟩⟩
        (1/4) (1/3)).2.rst = (⟨0, 0⟩ : CrushState) :=
  C1_bypass_identity ⟨1/2, 8, true, true⟩ 48000 ⟨initPitchState, ⟨0, 0⟩, ⟨0, 0⟩⟩
    (1/4) (1/3) rfl

/-- C2: `MySoftClip` satisfies its contract (`2/3` above 1, `-2/3` below -1,
`x - x³/3` in between) and is odd, bounded to `[-2/3, 2/3]`, and monotonically
non-decreasing. -/
theorem C2_softclip_contract :
    (∀ x : ℚ, 1 < x → MySoftClip x = 2/3) ∧
    (∀ x : ℚ, x < -1 → MySoftClip x = -(2/3)) ∧
    (∀ x : ℚ, -1 ≤ x → x ≤ 1 → MySoftClip x = x - (x*x*x)/3) ∧
    (∀ x : ℚ, MySoftClip (-x) = -MySoftClip x) ∧
    (∀ x : ℚ, -(2/3) ≤ MySoftClip x ∧ MySoftClip x ≤ 2/3) ∧
    (∀ x y : ℚ, x ≤ y → MySoftClip x ≤ MySoftClip y) := by
  refine ⟨?_, ?_, ?_, MySoftClip_odd, MySoftClip_bounds, fun x y h => MySoftClip_mono h⟩
  · intro x hx
    unfold MySoftClip
    rw [if_pos hx]
  · intro x hx
    unfold MySoftClip
    rw [if_neg (by linarith), if_pos hx]
    norm_num
  · intro x hx1 hx2
    unfold MySoftClip
    rw [if_neg (by linarith), if_neg (by linarith)]

theorem C2_softclip_contract_witness :
    MySoftClip 2 = 2/3 ∧ MySoftClip (-2) = -(2/3) ∧
    MySoftClip (1/2) = 1/2 - ((1/2)*(1/2)*(1/2))/3 ∧
    MySoftClip (1/4) ≤ MySoftClip (3/4) :=
  ⟨C2_softclip_contract.1 2 (by norm_num),
   C2_softclip_contract.2.1 (-2) (by norm_num),
   C2_softclip_contract.2.2.1 (1/2) (by norm_num) (by norm_num),
   C2_softclip_contract.2.2.2.2.2 (1/4) (3/4) (by norm_num)⟩

/-- C3: for every bit depth in [2,16] and every held sample `v`, the quantized
value computed in `BitcrushSample` after the pre-gain stage is an exact
integer multiple of `1 / 2^bit_depth`. -/
theorem C3_quantize_exact_multiple (bd : ℕ) (v : ℚ) (h2 : 2 ≤ bd) (h16 : bd ≤ 16) :
    ∃ k : ℤ, quantize (2 ^ bd) (v * pre_gain) = (k : ℚ) * (1 / 2 ^ bd) := by
  refine ⟨⌊v * pre_gain * ((2 : ℚ) ^ bd) + 1/2⌋, ?_⟩
  unfold quantize
  push_cast
  ring

theorem C3_quantize_exact_multiple_witness :
    ∃ k : ℤ, quantize (2 ^ 2) ((2 : ℚ) * pre_gain) = (k : ℚ) * (1 / 2 ^ 2) :=
  C3_quantize_exact_multiple 2 2 (by norm_num) (by norm_num)

/-- C7: with `sr_factor = 1` the hold stage latches the input 2.0 as
`heldSample`, and with `bit_depth = 2` the whole chain returns exactly 2/3:
`levels = 4`, quantization gives 2.0, post-gain gives 1.6, soft clip gives 2/3. -/
theorem C7_concrete_two_thirds :
    (BitcrushSample 2 ⟨0, 0⟩ 1 2).1 = 2/3 ∧
    (BitcrushSample 2 ⟨0, 0⟩ 1 2).2.heldSample = 2 := by
  simp only [BitcrushSample, quantize, MySoftClip, pre_gain, post_gain]
  norm_num

/-- C4: the hold length is `1 + floor(decimationAmount * 99)` in manual mode and
`floor(1 + decimationAmount * max(200 / max(detectedFreq, 1), 1) * 30)` in
adaptive mode, each clamped to [1,100]; and adaptive mode with frequency 50 and
amount 1/2 yields 61. -/
theorem C4_holdLength_formulas (a f : ℚ) (h0 : 0 ≤ a) (h1 : a ≤ 1) (hf : 0 < f) :
    clampSr (srFactorManual a) = max 1 (min 100 (1 + ⌊a * 99⌋)) ∧
    clampSr (srFactorAdaptive a f) = max 1 (min 100 ⌊1 + a * max (200 / max f 1) 1 * 30⌋) ∧
    clampSr (srFactorAdaptive (1/2) 50) = 61 := by
  refine ⟨?_, ?_, ?_⟩
  · have hm : srFactorManual a = 1 + ⌊a * 99⌋ := by
      rw [srFactorManual, cIntCast_of_nonneg (mul_nonneg h0 (by norm_num))]
    rw [clampSr_eq_clamp, hm]
  · have hpf1 : 1 ≤ pitchFactorOf (pitchOf f) := pitchFactorOf_ge_one _
    have hnn : 0 ≤ 1 + a * pitchFactorOf (pitchOf f) * 30 := by
      have : 0 ≤ a * pitchFactorOf (pitchOf f) * 30 :=
        mul_nonneg (mul_nonneg h0 (by linarith)) (by norm_num)
      linarith
    have ha : srFactorAdaptive a f = ⌊1 + a * max (200 / max f 1) 1 * 30⌋ := by
      rw [srFactorAdaptive, cIntCast_of_nonneg hnn, pitchFactorOf_eq_max, pitchOf_eq_max]
    rw [clampSr_eq_clamp, ha]
  · have : srFactorAdaptive (1/2) 50 = 61 := by
      rw [srFactorAdaptive]
      norm_num [pitchOf, pitchFactorOf, cIntCast]
    rw [this]
    rfl

theorem C4_holdLength_formulas_witness :
    clampSr (srFactorManual (1/2)) = max 1 (min 100 (1 + ⌊(1/2 : ℚ) * 99⌋)) ∧
    clampSr (srFactorAdaptive (1/2) 50) =
      max 1 (min 100 ⌊1 + (1/2 : ℚ) * max (200 / max 50 1) 1 * 30⌋) ∧
    clampSr (srFactorAdaptive (1/2) 50) = 61 :=
  C4_holdLength_formulas (1/2) 50 (by norm_num) (by norm_num) (by norm_num)

/-- C5: for any decimation amount in [0,1] and any positive detected frequency,
in both manual and adaptive mode the clamped `sr_factor` passed on to
`BitcrushSample` lies in [1,100]. -/
theorem C5_srFactor_in_range (a f : ℚ) (h0 : 0 ≤ a) (h1 : a ≤ 1) (hf : 0 < f) :
    ∀ pitchTrackingOn : Bool,
      1 ≤ clampSr (if pitchTrackingOn then srFactorAdaptive a f else srFactorManual a) ∧
      clampSr (if pitchTrackingOn then srFactorAdaptive a f else srFactorManual a) ≤ 100 := by
  intro pt
  exact clampSr_range _

theorem C5_srFactor_in_range_witness :
    1 ≤ clampSr (if true then srFactorAdaptive (1/2) 50 else srFactorManual (1/2)) ∧
    clampSr (if true then srFactorAdaptive (1/2) 50 else srFactorManual (1/2)) ≤ 100 :=
  C5_srFactor_in_range (1/2) 50 (by norm_num) (by norm_num) (by norm_num) true

/-- C6: on an upward zero crossing (previous sample < 0, current sample ≥ 0),
`UpdatePitch` resets `timeSinceZero` to 0, and overwrites `detectedFreq` with
the crossing-derived frequency exactly when that frequency lies strictly within
(20, 4000); otherwise `detectedFreq` keeps its previous value exactly. -/
theorem C6_crossing_update (s sr : ℚ) (ps : PitchState)
    (hneg : ps.lastSample < 0) (hpos : 0 ≤ s) (ht : 0 ≤ ps.timeSinceZero) :
    (UpdatePitch s sr ps).timeSinceZero = 0 ∧
    (20 < 1 / ((ps.timeSinceZero + 1) / sr) ∧ 1 / ((ps.timeSinceZero + 1) / sr) < 4000 →
      (UpdatePitch s sr ps).detectedFreq = 1 / ((ps.timeSinceZero + 1) / sr)) ∧
    (¬(20 < 1 / ((ps.timeSinceZero + 1) / sr) ∧ 1 / ((ps.timeSinceZero + 1) / sr) < 4000) →
      (UpdatePitch s sr ps).detectedFreq = ps.detectedFreq) := by
  simp only [UpdatePitch]
  rw [if_pos ⟨hneg, hpos⟩, if_pos (show (0:ℚ) < ps.timeSinceZero + 1 by linarith)]
  refine ⟨?_, ?_, ?_⟩
  · split_ifs <;> rfl
  · intro h
    rw [if_pos h]
  · intro h
    rw [if_neg h]

theorem C6_crossing_update_witness :
    (UpdatePitch 0 48000 ⟨-1, 479, 110⟩).timeSinceZero = 0 ∧
    (UpdatePitch 0 48000 ⟨-1, 479, 110⟩).detectedFreq = 100 := by
  have h := C6_crossing_update 0 48000 ⟨-1, 479, 110⟩ (by norm_num) (by norm_num)
    (by norm_num)
  refine ⟨h.1, ?_⟩
  have h2 := h.2.1 (by norm_num)
  rw [h2]
  norm_num

/-- C8: the quantization step rounds exact half-level ties toward positive
infinity (the tie `(2k+1)/(2·levels)` maps to `(k+1)/levels`), and is therefore
not odd: there is a `v` with `quantize levels (-v) ≠ -quantize levels v`. -/
theorem C8_rounding_asymmetry (levels : ℤ) (hl : 0 < levels) :
    (∀ k : ℤ, quantize levels (((2*k+1 : ℤ) : ℚ) / (2 * (levels : ℚ))) =
      ((k+1 : ℤ) : ℚ) / (levels : ℚ)) ∧
    (∃ v : ℚ, quantize levels (-v) ≠ -quantize levels v) := by
  have hL : ((levels : ℚ)) ≠ 0 := Int.cast_ne_zero.mpr (ne_of_gt hl)
  constructor
  · intro k
    unfold quantize
    have harg : ((2*k+1 : ℤ) : ℚ) / (2 * (levels : ℚ)) * (levels : ℚ) + 1/2 =
        ((k+1 : ℤ) : ℚ) := by
      field_simp
      ring
    rw [harg, Int.floor_intCast]
  · refine ⟨-(1 / (2 * (levels : ℚ))), ?_⟩
    unfold quantize
    have h1 : -(-(1 / (2 * (levels : ℚ)))) * (levels : ℚ) + 1/2 = 1 := by
      field_simp
      ring
    have h2 : -(1 / (2 * (levels : ℚ))) * (levels : ℚ) + 1/2 = 0 := by
      field_simp
      ring
    rw [h1, h2, Int.floor_one, Int.floor_zero]
    simp [hL]

theorem C8_rounding_asymmetry_witness :
    quantize 4 (((2*3+1 : ℤ) : ℚ) / (2 * ((4 : ℤ) : ℚ))) = ((3+1 : ℤ) : ℚ) / ((4 : ℤ) : ℚ) ∧
    (∃ v : ℚ, quantize 4 (-v) ≠ -quantize 4 v) :=
  ⟨(C8_rounding_asymmetry 4 (by norm_num)).1 3, (C8_rounding_asymmetry 4 (by norm_num)).2⟩

/-- C9: for every raw control code in [0, 65535], the bit depth computed by the
audio callback equals `clamp(2 + floor(raw/65535 * 14), 2, 16)` (the clamp is
the identity there) and lies in [2,16]. -/
theorem C9_bitDepth_range (raw : ℕ) (h : raw ≤ 65535) :
    bitDepthOf raw = max 2 (min 16 (2 + ⌊(raw : ℚ) / 65535 * 14⌋)) ∧
    2 ≤ bitDepthOf raw ∧ bitDepthOf raw ≤ 16 := by
  have hx0 : (0:ℚ) ≤ (raw : ℚ) / 65535 * 14 :=
    mul_nonneg (div_nonneg (Nat.cast_nonneg raw) (by norm_num)) (by norm_num)
  have hr : (raw : ℚ) ≤ 65535 := by exact_mod_cast h
  have hx14 : (raw : ℚ) / 65535 * 14 ≤ 14 := by
    have hd : (raw : ℚ) / 65535 ≤ 1 := by
      rw [div_le_one (by norm_num)]
      exact hr
    nlinarith
  have hfl0 : 0 ≤ ⌊(raw : ℚ) / 65535 * 14⌋ := Int.le_floor.mpr (by exact_mod_cast hx0)
  have hfl14 : ⌊(raw : ℚ) / 65535 * 14⌋ ≤ 14 := by
    calc ⌊(raw : ℚ) / 65535 * 14⌋ ≤ ⌊(14 : ℚ)⌋ := Int.floor_mono hx14
      _ = 14 := by norm_num
  have hbd : bitDepthOf raw = 2 + ⌊(raw : ℚ) / 65535 * 14⌋ := by
    rw [bitDepthOf, cIntCast_of_nonneg hx0]
  refine ⟨?_, ?_, ?_⟩ <;> rw [hbd] <;> omega

theorem C9_bitDepth_range_witness :
    bitDepthOf 65535 = max 2 (min 16 (2 + ⌊((65535 : ℕ) : ℚ) / 65535 * 14⌋)) ∧
    2 ≤ bitDepthOf 65535 ∧ bitDepthOf 65535 ≤ 16 :=
  C9_bitDepth_range 65535 (by norm_num)

/-- C10: `detectedFreq` starts at 110 and every `UpdatePitch` step keeps it
strictly within (20, 4000); consequently the 1 Hz floor on the pitch is the
identity and the pitch factor never exceeds 10. -/
theorem C10_detectedFreq_window :
    (20 < initPitchState.detectedFreq ∧ initPitchState.detectedFreq < 4000) ∧
    (∀ s sr : ℚ, ∀ ps : PitchState, 20 < ps.detectedFreq → ps.detectedFreq < 4000 →
      20 < (UpdatePitch s sr ps).detectedFreq ∧ (UpdatePitch s sr ps).detectedFreq < 4000) ∧
    (∀ f : ℚ, 20 < f → pitchOf f = f ∧ pitchFactorOf (pitchOf f) ≤ 10) := by
  refine ⟨by norm_num [initPitchState], ?_, ?_⟩
  · intro s sr ps h20 h4000
    simp only [UpdatePitch]
    split_ifs with h1 h2 h3
    · exact h3
    · exact ⟨h20, h4000⟩
    · exact ⟨h20, h4000⟩
    · exact ⟨h20, h4000⟩
  · intro f hf
    have hp : pitchOf f = f := by
      unfold pitchOf
      rw [if_neg (by linarith)]
    refine ⟨hp, ?_⟩
    rw [hp]
    unfold pitchFactorOf
    split_ifs with h
    · norm_num
    · rw [div_le_iff₀ (by linarith)]
      linarith

theorem C10_detectedFreq_window_witness :
    (20 < (UpdatePitch 0 48000 ⟨-1, 479, 110⟩).detectedFreq ∧
      (UpdatePitch 0 48000 ⟨-1, 479, 110⟩).detectedFreq < 4000) ∧
    (pitchOf 110 = 110 ∧ pitchFactorOf (pitchOf 110) ≤ 10) :=
  ⟨C10_detectedFreq_window.2.1 0 48000 ⟨-1, 479, 110⟩ (by norm_num) (by norm_num),
   C10_detectedFreq_window.2.2 110 (by norm_num)⟩

end BitCrusher
